import Mathlib

/-!
Verification of the marker-scoped text-merge engine in pebble's documentation
generators (`docs/generate_command_docs.py` and `docs/generate_cmd_doc.py`).

Documents are modelled as `List Char`.  Python string primitives (`str.find`,
slicing with negative indices, `str.split`, `str.splitlines`, `str.strip`,
`str.lower`, `str.format`, `sorted`, and the one `re.sub` call used by the
scripts) are given faithful executable models, and the per-document merge
pipeline `process_command` is assembled from them exactly as in the source.
-/

set_option linter.unusedVariables false

set_option maxRecDepth 100000

/-- Boolean prefix test on character lists. -/
def listPre : List Char → List Char → Bool
  | [], _ => true
  | _ :: _, [] => false
  | a :: as, b :: bs => a == b && listPre as bs

/-- `occursAt pat t i`: the pattern `pat` occurs in `t` starting at 0-based index `i`. -/
def occursAt (pat t : List Char) (i : Nat) : Prop := listPre pat (t.drop i) = true

instance (pat t : List Char) (i : Nat) : Decidable (occursAt pat t i) := by
  unfold occursAt; infer_instance

/-- Index of the first occurrence of `pat` in `t` (Python `str.find`, as an `Option`). -/
def strFind (t pat : List Char) : Option Nat :=
  if listPre pat t then some 0
  else match t with
    | [] => none
    | _ :: tl => (strFind tl pat).map (· + 1)

/-- Python `str.find`: first index, or `-1` when absent. -/
def pyFind (t pat : List Char) : Int :=
  match strFind t pat with
  | some i => (i : Int)
  | none => -1

/-- Python `str.find(sub, start)` with a nonnegative start position. -/
def pyFindFrom (t pat : List Char) (start : Nat) : Int :=
  match strFind (t.drop start) pat with
  | some i => ((i + start : Nat) : Int)
  | none => -1

/-- Resolve a (possibly negative) Python slice endpoint to a `Nat` index. -/
def pyIdx (len : Nat) (i : Int) : Nat :=
  if i < 0 then ((len : Int) + i).toNat else min i.toNat len

/-- Python `t[:i]`. -/
def pySliceTo (t : List Char) (i : Int) : List Char := t.take (pyIdx t.length i)

/-- Python `t[i:]`. -/
def pySliceFrom (t : List Char) (i : Int) : List Char := t.drop (pyIdx t.length i)

/-- Characters stripped by Python `str.strip()` / split by `str.split()`. -/
def isPySpace (c : Char) : Bool :=
  c == ' ' || c == '\t' || c == '\n' || c == '\r' || c == '\x0b' || c == '\x0c'

/-- Python `str.strip()`. -/
def pyStrip (t : List Char) : List Char :=
  ((t.dropWhile isPySpace).reverse.dropWhile isPySpace).reverse

/-- Python `str.lower()` (ASCII range, which is all the scripts feed it). -/
def pyLower (t : List Char) : List Char :=
  t.map fun c => if 'A' ≤ c ∧ c ≤ 'Z' then Char.ofNat (c.toNat + 32) else c

/-- `"sep".join(parts)`. -/
def joinList (sep : List Char) : List (List Char) → List Char
  | [] => []
  | [x] => x
  | x :: xs => x ++ sep ++ joinList sep xs

def AUTOMATED_START_MARKER : List Char := "<!-- START AUTOMATED OUTPUT -->".toList

def AUTOMATED_STOP_MARKER : List Char := "<!-- END AUTOMATED OUTPUT -->".toList

/-- The literal `":input: "` matched by the regex in `render_code_block_cmd`. -/
def inputDirective : List Char := ":input: ".toList

/-- `render_code_block_cmd`: the `re.sub` on the pattern `(:input: ).*$` with
`count=1` and `re.MULTILINE` — at the first occurrence of `":input: "`, replace
the rest of that line with `cmd`; leave the text unchanged when there is no
occurrence. -/
def render_code_block_cmd (text cmd : List Char) : List Char :=
  match strFind text inputDirective with
  | none => text
  | some i =>
    text.take i ++ inputDirective ++ cmd ++ (text.drop (i + 8)).dropWhile (fun c => c != '\n')

/-- `render_code_block_output`: splice `output` over
`text[text.find(START) : text.find(STOP) + len(STOP)]`, with Python's slice
semantics for the `-1` returned by a failed `find`. -/
def render_code_block_output (text output : List Char) : List Char :=
  pySliceTo text (pyFind text AUTOMATED_START_MARKER) ++ output ++
    pySliceFrom text (pyFind text AUTOMATED_STOP_MARKER + (AUTOMATED_STOP_MARKER.length : Int))

/-- One full per-document merge: `render_code_block_cmd` then `render_code_block_output`
(lines 141-142 of `generate_command_docs.py`). -/
def mergeDoc (cmd output text : List Char) : List Char :=
  render_code_block_output (render_code_block_cmd text cmd) output

/-- `args = ["help"] if cmd == "help" else [cmd, "--help"]`. -/
def pebbleArgs (cmd : List Char) : List (List Char) :=
  if cmd = "help".toList then ["help".toList] else [cmd, "--help".toList]

/-- `help_cmd_str = " ".join(["pebble"] + args)`. -/
def help_cmd_str (cmd : List Char) : List Char :=
  joinList [' '] ("pebble".toList :: pebbleArgs cmd)

/-- `go_run_cmd = " ".join(["go", "run", "../cmd/pebble"] + args)`. -/
def go_run_cmd_str (cmd : List Char) : List Char :=
  joinList [' '] ("go".toList :: "run".toList :: "../cmd/pebble".toList :: pebbleArgs cmd)

/-- The generated region block: start marker, `terminal` code fence with an
`:input:` line naming the invocation, the captured stdout, closing fence,
stop marker. -/
def automatedOutputBlock (cmdStr stdout : List Char) : List Char :=
  AUTOMATED_START_MARKER ++ "\n```\x7bterminal\x7d\n:input: ".toList ++ cmdStr ++
    ('\n' :: stdout) ++ "\n```\n".toList ++ AUTOMATED_STOP_MARKER

/-- `generate_help_command_and_output`, with the captured subprocess stdout passed
in as `capture` (the subprocess call itself is an excluded collaborator). -/
def generate_help_command_and_output (cmd capture : List Char) : List Char × List Char :=
  (help_cmd_str cmd, automatedOutputBlock (help_cmd_str cmd) (pyStrip capture))

/-- The module-level `TEMPLATE` of `generate_command_docs.py` (braces written
with `\x7b`/`\x7d` escapes). -/
def TEMPLATE : List Char :=
  ("(reference_pebble_\x7bcommand\x7d_command)=\n# \x7bcommand\x7d command\n\n\x7bdescription\x7d\n\n## Usage\n\n<!-- START AUTOMATED OUTPUT -->\n```\x7b\x7bterminal\x7d\x7d\n   :input: command\n```\n<!-- END AUTOMATED OUTPUT -->\n").toList

def lbrace : Char := Char.ofNat 123

def rbrace : Char := Char.ofNat 125

/-- Fuel-driven scanner for Python `str.format` with the keyword arguments
`command=c, description=d`: doubled braces become literal braces, `\x7bcommand\x7d`
and `\x7bdescription\x7d` are replaced, anything else brace-related is an error
(`none`, where Python raises). -/
def formatGo : Nat → List Char → List Char → List Char → Option (List Char)
  | _, [], _, _ => some []
  | 0, _ :: _, _, _ => none
  | fuel + 1, ch :: rest, c, d =>
    if ch = lbrace then
      match rest with
      | [] => none
      | ch2 :: rest2 =>
        if ch2 = lbrace then
          match formatGo fuel rest2 c d with
          | some r => some (lbrace :: r)
          | none => none
        else
          match rest.dropWhile (fun x => x != rbrace) with
          | [] => none
          | _ :: rest3 =>
            let name := rest.takeWhile (fun x => x != rbrace)
            match (if name = "command".toList then some c
                   else if name = "description".toList then some d else none),
                  formatGo fuel rest3 c d with
            | some v, some r => some (v ++ r)
            | _, _ => none
    else if ch = rbrace then
      match rest with
      | [] => none
      | ch2 :: rest2 =>
        if ch2 = rbrace then
          match formatGo fuel rest2 c d with
          | some r => some (rbrace :: r)
          | none => none
        else none
    else
      match formatGo fuel rest c d with
      | some r => some (ch :: r)
      | none => none

/-- `text.format(command=c, description=d)`. -/
def pyFormatSubst (t c d : List Char) : Option (List Char) := formatGo t.length t c d

/-- Line 136 of `generate_command_docs.py`:
`description = f"The `{cmd}` command is used to {description.lower()}."`. -/
def mkDescription (cmd description : List Char) : List Char :=
  "The `".toList ++ cmd ++ "` command is used to ".toList ++ pyLower description ++ ".".toList

/-- Outcome of one `process_command` call at the document level. -/
inductive MergeOutcome where
  | skipped : MergeOutcome
  | wrote : List Char → MergeOutcome
  | failed : MergeOutcome
deriving DecidableEq

/-- The text-level behaviour of `process_command` (lines 119-145): skip unless the
start marker is present; for a freshly created file run the template through
`str.format`; then rewrite the `:input:` line and splice the generated block.
`failed` marks the propagated exception of a failing `str.format`. -/
def process_command_text (file_existed : Bool) (cmd description capture text : List Char) :
    MergeOutcome :=
  if (strFind text AUTOMATED_START_MARKER).isSome then
    match (if file_existed then some text
           else pyFormatSubst text cmd (mkDescription cmd description)) with
    | none => MergeOutcome.failed
    | some t1 =>
      MergeOutcome.wrote (mergeDoc (help_cmd_str cmd)
        (automatedOutputBlock (help_cmd_str cmd) (pyStrip capture)) t1)
  else MergeOutcome.skipped

/-- Python `str.splitlines()` on LF boundaries, fuel-driven. -/
def splitlinesGo : Nat → List Char → List (List Char)
  | _, [] => []
  | 0, t => [t]
  | fuel + 1, t =>
    t.takeWhile (fun c => c != '\n') ::
      splitlinesGo fuel ((t.dropWhile (fun c => c != '\n')).drop 1)

def splitlines (t : List Char) : List (List Char) := splitlinesGo t.length t

/-- Python `line.split(maxsplit=1)`: drop leading whitespace, take the first
whitespace-delimited token, then the remainder with its leading whitespace
removed (omitted entirely when empty). -/
def pySplitMax1 (l : List Char) : List (List Char) :=
  let l1 := l.dropWhile isPySpace
  if l1 = [] then []
  else
    let tok := l1.takeWhile (fun c => !isPySpace c)
    let rest := (l1.dropWhile (fun c => !isPySpace c)).dropWhile isPySpace
    if rest = [] then [tok] else [tok, rest]

def cmpNat (a b : Nat) : Ordering :=
  if a < b then .lt else if b < a then .gt else .eq

/-- Python string comparison: lexicographic on code points. -/
def cmpChar (a b : Char) : Ordering := cmpNat a.toNat b.toNat

/-- Lexicographic comparison of lists, elementwise by `cmp`. -/
def cmpList {α : Type} (cmp : α → α → Ordering) : List α → List α → Ordering
  | [], [] => .eq
  | [], _ :: _ => .lt
  | _ :: _, [] => .gt
  | a :: as, b :: bs =>
    match cmp a b with
    | .eq => cmpList cmp as bs
    | o => o

/-- Python `<=` on `list[str]` values, as used by `sorted`. -/
def entryLe (a b : List (List Char)) : Bool :=
  match cmpList (cmpList cmpChar) a b with
  | .gt => false
  | _ => true

/-- Stable insertion of `x` into `l`: before the first element it is `le` to. -/
def insertLe {α : Type} (le : α → α → Bool) (x : α) : List α → List α
  | [] => [x]
  | b :: bs => if le x b then x :: b :: bs else b :: insertLe le x bs

/-- A stable sort, modelling Python `sorted`. -/
def pySorted {α : Type} (le : α → α → Bool) : List α → List α
  | [] => []
  | x :: xs => insertLe le x (pySorted le xs)

/-- `get_all_commands` on the captured stdout of `pebble help --all`:
keep the lines indented by four spaces, `split(maxsplit=1)` each, sort. -/
def get_all_commands (stdout : List Char) : List (List (List Char)) :=
  pySorted entryLe
    (((splitlines stdout).filter fun l => listPre "    ".toList l).map pySplitMax1)

/-- `get_description_from_output` of `generate_cmd_doc.py`: the (stripped) first
line of the block that follows the first blank line after `"Usage:\n"`. -/
def get_description_from_output (text : List Char) : List Char :=
  match strFind text "Usage:\n".toList with
  | none => []
  | some u =>
    match strFind (text.drop (u + 7)) ("\n\n".toList) with
    | none => []
    | some v =>
      let rest := text.drop (u + 7 + v + 2)
      if rest.any (fun c => c == '\n') then pyStrip (rest.takeWhile (fun c => c != '\n'))
      else []

/-- The rebuilt toctree block of `update_toc` (entries are the `cmd[0]` command
names of the enumerated pairs). -/
def tocTree (cmds : List (List (List Char))) : List Char :=
  "```\x7btoctree\x7d\n:titlesonly:\n:maxdepth: 1\n\n".toList ++
    joinList ['\n'] (cmds.map fun c => c.headD [] ++ " <".toList ++ c.headD [] ++ ">".toList) ++
    "\n```".toList

/-- The text transformation of `update_toc`: splice the rebuilt toctree over
`text[text.find("```\x7btoctree\x7d") : text.find("```", start+1) + 3]`. -/
def update_toc_text (cmds : List (List (List Char))) (text : List Char) : List Char :=
  pySliceTo text (pyFind text ("```\x7btoctree\x7d".toList)) ++ tocTree cmds ++
    pySliceFrom text (pyFindFrom text ("```".toList)
      (pyFind text ("```\x7btoctree\x7d".toList) + 1).toNat + 3)

/-- A managed document: each marker occurs exactly once, with the whole start
marker before the stop marker, the stop marker begins right after a newline, and
every `":input: "` directive lies strictly inside the automated region. -/
def WellFormedDoc (D : List Char) (s p : Nat) : Prop :=
  strFind D AUTOMATED_START_MARKER = some s ∧
  strFind D AUTOMATED_STOP_MARKER = some p ∧
  s + 31 ≤ p ∧
  strFind (D.drop (s + 1)) AUTOMATED_START_MARKER = none ∧
  strFind (D.drop (p + 1)) AUTOMATED_STOP_MARKER = none ∧
  (∀ i, i < D.length → occursAt inputDirective D i → s + 31 ≤ i ∧ i + 9 ≤ p) ∧
  D[p - 1]? = some '\n'

instance (D : List Char) (s p : Nat) : Decidable (WellFormedDoc D s p) := by
  unfold WellFormedDoc; infer_instance

/-- A well-behaved generated block: the command string fits on the `:input:` line
and contains no `<`, the block contains each marker exactly once (start marker at
its head, stop marker at its tail), and the block's `":input: "` directives all
lie inside its own fenced region. -/
def GoodContent (cs ho : List Char) : Prop :=
  (∀ c ∈ cs, c ≠ '\n') ∧ (∀ c ∈ cs, c ≠ '<') ∧
  (∀ i, i < (automatedOutputBlock cs ho).length →
    occursAt AUTOMATED_STOP_MARKER (automatedOutputBlock cs ho) i →
    i = 60 + cs.length + ho.length) ∧
  (∀ i, i < (automatedOutputBlock cs ho).length →
    occursAt AUTOMATED_START_MARKER (automatedOutputBlock cs ho) i → i = 0) ∧
  (∀ i, i < (automatedOutputBlock cs ho).length →
    occursAt inputDirective (automatedOutputBlock cs ho) i →
    46 ≤ i ∧ i + 9 ≤ 60 + cs.length + ho.length)

instance (cs ho : List Char) : Decidable (GoodContent cs ho) := by
  unfold GoodContent; infer_instance

def tplK1 : List Char := "(reference_pebble_".toList

def tplK2 : List Char := "_command)=\n# ".toList

def tplK3 : List Char := " command\n\n".toList

def tplK4 : List Char :=
  ("\n\n## Usage\n\n<!-- START AUTOMATED OUTPUT -->\n```\x7bterminal\x7d\n   :input: command\n```\n<!-- END AUTOMATED OUTPUT -->\n").toList

/-- The text produced by substituting the template's two placeholders. -/
def formattedDoc (c d : List Char) : List Char :=
  tplK1 ++ (c ++ (tplK2 ++ (c ++ (tplK3 ++ (d ++ tplK4)))))

def phCommand : List Char := "\x7bcommand\x7d".toList

def phDescription : List Char := "\x7bdescription\x7d".toList

def demoCmdStr : List Char := "pebble exec --help".toList

def demoHelp : List Char := "Usage: pebble exec".toList

/-- A document whose stop marker precedes its start marker. -/
def docStopStart : List Char := AUTOMATED_STOP_MARKER ++ AUTOMATED_START_MARKER

/-- A well-formed managed document (`s = 4`, `p = 46`). -/
def wfDoc1 : List Char :=
  "# d\n".toList ++ AUTOMATED_START_MARKER ++ "\n:input: x\n".toList ++
    AUTOMATED_STOP_MARKER ++ "\ntail\n".toList

/-- A document with an `:input:` line before its automated region. -/
def docInputBefore : List Char :=
  ":input: x\n".toList ++ AUTOMATED_START_MARKER ++ AUTOMATED_STOP_MARKER

/-- A document containing the start marker but no stop marker. -/
def docStartOnly : List Char := AUTOMATED_START_MARKER ++ "x".toList

/-- Another document containing the start marker but no stop marker. -/
def docStartNoStop : List Char := "ab".toList ++ AUTOMATED_START_MARKER

/-- The description value the claim asserts: wrapped, lower-cased first block of
the captured help text (extraction as in `get_description_from_output`). -/
def claimedDescriptionValue (cmd capture : List Char) : List Char :=
  "The `".toList ++ cmd ++ "` command is used to ".toList ++
    pyLower (get_description_from_output capture) ++ ".".toList

/-- A captured help text whose first block after `Usage:` differs from the
enumerator's one-line description. -/
def demoCapture8 : List Char :=
  "Usage:\n  pebble exec\n\nDoes other things.\nMore text.\n".toList

/-- The document actually written for a fresh `exec` page at this input. -/
def c8written : List Char :=
  mergeDoc (help_cmd_str "exec".toList)
    (automatedOutputBlock (help_cmd_str "exec".toList) (pyStrip demoCapture8))
    (formattedDoc "exec".toList (mkDescription "exec".toList "Run things".toList))

theorem listPre_iff {p t : List Char} : listPre p t = true ↔ ∃ u, t = p ++ u := by
  induction p generalizing t with
  | nil => simp [listPre]
  | cons a as ih =>
    cases t with
    | nil => simp [listPre]
    | cons b bs =>
      simp only [listPre, Bool.and_eq_true, beq_iff_eq, ih, List.cons_append]
      constructor
      · rintro ⟨rfl, u, rfl⟩; exact ⟨u, rfl⟩
      · rintro ⟨u, h⟩
        cases h
        exact ⟨rfl, u, rfl⟩

theorem listPre_append (p u : List Char) : listPre p (p ++ u) = true :=
  listPre_iff.mpr ⟨u, rfl⟩

theorem occursAt_iff {pat t : List Char} {i : Nat} :
    occursAt pat t i ↔ ∃ u, t.drop i = pat ++ u := by
  unfold occursAt; exact listPre_iff

theorem occursAt_zero_iff {pat t : List Char} : occursAt pat t 0 ↔ listPre pat t = true := by
  unfold occursAt; rw [List.drop_zero]

theorem occursAt_succ_cons {pat : List Char} {a : Char} {tl : List Char} {j : Nat} :
    occursAt pat (a :: tl) (j + 1) ↔ occursAt pat tl j := by
  unfold occursAt; rw [List.drop_succ_cons]

theorem occursAt_length {pat t : List Char} {i : Nat} (h : occursAt pat t i)
    (hne : pat ≠ []) : i + pat.length ≤ t.length := by
  obtain ⟨u, hu⟩ := occursAt_iff.mp h
  have hlen : t.length - i = pat.length + u.length := by
    have := congrArg List.length hu
    simpa using this
  by_cases hi : i ≤ t.length
  · omega
  · exfalso
    have : t.drop i = [] := List.drop_of_length_le (by omega)
    rw [this] at hu
    exact hne (List.append_eq_nil.mp hu.symm).1

theorem occursAt_drop {pat t : List Char} {d j : Nat} :
    occursAt pat (t.drop d) j ↔ occursAt pat t (d + j) := by
  unfold occursAt; rw [List.drop_drop]

theorem occursAt_append_right {pat X Y : List Char} {i : Nat} (h : occursAt pat Y i) :
    occursAt pat (X ++ Y) (X.length + i) := by
  obtain ⟨u, hu⟩ := occursAt_iff.mp h
  refine occursAt_iff.mpr ⟨u, ?_⟩
  rw [List.drop_append_eq_append_drop, List.drop_of_length_le (Nat.le_add_right _ _),
    Nat.add_sub_cancel_left, hu, List.nil_append]

theorem occursAt_append_left {pat X Y : List Char} {i : Nat} (h : occursAt pat X i) :
    occursAt pat (X ++ Y) i := by
  obtain ⟨u, hu⟩ := occursAt_iff.mp h
  refine occursAt_iff.mpr ⟨u ++ Y.drop (i - X.length), ?_⟩
  rw [List.drop_append_eq_append_drop, hu, List.append_assoc]

theorem occursAt_of_append_right {pat X Y : List Char} {i : Nat}
    (h : occursAt pat (X ++ Y) i) (hi : X.length ≤ i) : occursAt pat Y (i - X.length) := by
  obtain ⟨u, hu⟩ := occursAt_iff.mp h
  refine occursAt_iff.mpr ⟨u, ?_⟩
  rw [List.drop_append_eq_append_drop, List.drop_of_length_le hi, List.nil_append] at hu
  exact hu

theorem occursAt_of_append_left {pat X Y : List Char} {i : Nat}
    (h : occursAt pat (X ++ Y) i) (hi : i + pat.length ≤ X.length) : occursAt pat X i := by
  obtain ⟨u, hu⟩ := occursAt_iff.mp h
  rw [List.drop_append_eq_append_drop, Nat.sub_eq_zero_of_le (by omega), List.drop_zero] at hu
  have hlen : (X.drop i).length = X.length - i := List.length_drop i X
  have htake : (X.drop i).take pat.length = pat := by
    have h1 := congrArg (List.take pat.length) hu
    rw [List.take_append_eq_append_take, List.take_append_eq_append_take, hlen,
      Nat.sub_eq_zero_of_le (show pat.length ≤ X.length - i by omega), Nat.sub_self] at h1
    simpa using h1
  refine occursAt_iff.mpr ⟨(X.drop i).drop pat.length, ?_⟩
  conv_lhs => rw [← List.take_append_drop pat.length (X.drop i)]
  rw [htake]

theorem occursAt_get {pat t : List Char} {i : Nat} (h : occursAt pat t i) :
    ∀ k, k < pat.length → t[i + k]? = pat[k]? := by
  intro k hk
  obtain ⟨u, hu⟩ := occursAt_iff.mp h
  rw [← List.getElem?_drop, hu, List.getElem?_append_left hk]

theorem occursAt_char {pat t : List Char} {i m : Nat} {ch : Char} (h : occursAt pat t i)
    (hm : t[m]? = some ch) (h1 : i ≤ m) (h2 : m < i + pat.length) :
    pat[m - i]? = some ch := by
  have := occursAt_get h (m - i) (by omega)
  rw [show i + (m - i) = m by omega] at this
  rw [← this, hm]

theorem strFind_some_occurs {t pat : List Char} {i : Nat} (h : strFind t pat = some i) :
    occursAt pat t i := by
  induction t generalizing i with
  | nil =>
    rw [strFind] at h
    split at h
    · cases h; exact occursAt_zero_iff.mpr (by assumption)
    · simp at h
  | cons a tl ih =>
    rw [strFind] at h
    split at h
    · cases h; exact occursAt_zero_iff.mpr (by assumption)
    · obtain ⟨i', hi', rfl⟩ := Option.map_eq_some'.mp h
      exact occursAt_succ_cons.mpr (ih hi')

theorem strFind_some_least {t pat : List Char} {i : Nat} (h : strFind t pat = some i) :
    ∀ j, j < i → ¬ occursAt pat t j := by
  induction t generalizing i with
  | nil =>
    rw [strFind] at h
    split at h
    · cases h; omega
    · simp at h
  | cons a tl ih =>
    rw [strFind] at h
    split at h
    · cases h; omega
    · next hfalse =>
      obtain ⟨i', hi', rfl⟩ := Option.map_eq_some'.mp h
      intro j hj hocc
      cases j with
      | zero => exact hfalse (occursAt_zero_iff.mp hocc)
      | succ j' => exact ih hi' j' (by omega) (occursAt_succ_cons.mp hocc)

theorem strFind_none_not {t pat : List Char} (h : strFind t pat = none) :
    ∀ j, ¬ occursAt pat t j := by
  induction t with
  | nil =>
    rw [strFind] at h
    split at h
    · simp at h
    · next hfalse =>
      intro j hocc
      unfold occursAt at hocc
      rw [List.drop_nil] at hocc
      exact hfalse hocc
  | cons a tl ih =>
    rw [strFind] at h
    split at h
    · simp at h
    · next hfalse =>
      intro j hocc
      cases j with
      | zero => exact hfalse (occursAt_zero_iff.mp hocc)
      | succ j' => exact ih (Option.map_eq_none'.mp h) j' (occursAt_succ_cons.mp hocc)

theorem strFind_of {t pat : List Char} {i : Nat} (hocc : occursAt pat t i)
    (hleast : ∀ j, j < i → ¬ occursAt pat t j) : strFind t pat = some i := by
  induction t generalizing i with
  | nil =>
    have hpre : listPre pat [] = true := by
      unfold occursAt at hocc
      rwa [List.drop_nil] at hocc
    have hi : i = 0 := by
      by_contra hne
      exact hleast 0 (by omega) (occursAt_zero_iff.mpr hpre)
    subst hi
    rw [strFind, if_pos hpre]
  | cons a tl ih =>
    cases i with
    | zero =>
      rw [strFind, if_pos (occursAt_zero_iff.mp hocc)]
    | succ i' =>
      have hfalse : ¬ listPre pat (a :: tl) = true := fun hp =>
        hleast 0 (by omega) (occursAt_zero_iff.mpr hp)
      rw [strFind, if_neg hfalse]
      have := ih (occursAt_succ_cons.mp hocc)
        (fun j hj ho => hleast (j + 1) (by omega) (occursAt_succ_cons.mpr ho))
      rw [this, Option.map_some']

theorem strFind_unique {t pat : List Char} {s : Nat}
    (h : strFind t pat = some s) (hafter : strFind (t.drop (s + 1)) pat = none) :
    ∀ j, occursAt pat t j → j = s := by
  intro j hocc
  rcases Nat.lt_trichotomy j s with hlt | heq | hgt
  · exact absurd hocc (strFind_some_least h j hlt)
  · exact heq
  · exfalso
    have : occursAt pat (t.drop (s + 1)) (j - s - 1) :=
      occursAt_drop.mpr (by rw [show s + 1 + (j - s - 1) = j by omega]; exact hocc)
    exact strFind_none_not hafter _ this

theorem pyIdx_nat (len n : Nat) : pyIdx len (n : Int) = min n len := by
  unfold pyIdx
  rw [if_neg (by omega), Int.toNat_ofNat]

theorem pySliceTo_nat (t : List Char) (n : Nat) : pySliceTo t (n : Int) = t.take n := by
  unfold pySliceTo
  rw [pyIdx_nat]
  rcases Nat.le_total n t.length with h | h
  · rw [min_eq_left h]
  · rw [min_eq_right h, List.take_length, List.take_of_length_le h]

theorem pySliceFrom_nat (t : List Char) (n : Nat) : pySliceFrom t (n : Int) = t.drop n := by
  unfold pySliceFrom
  rw [pyIdx_nat]
  rcases Nat.le_total n t.length with h | h
  · rw [min_eq_left h]
  · rw [min_eq_right h, List.drop_length, List.drop_of_length_le h]

theorem pyFind_eq_some {t pat : List Char} {i : Nat} (h : strFind t pat = some i) :
    pyFind t pat = (i : Int) := by
  unfold pyFind; rw [h]

theorem pyFind_eq_neg {t pat : List Char} (h : strFind t pat = none) :
    pyFind t pat = -1 := by
  unfold pyFind; rw [h]

theorem stop_marker_len : AUTOMATED_STOP_MARKER.length = 29 := rfl

theorem start_marker_len : AUTOMATED_START_MARKER.length = 31 := rfl

theorem render_code_block_output_eq {t out : List Char} {s p : Nat}
    (hs : strFind t AUTOMATED_START_MARKER = some s)
    (hp : strFind t AUTOMATED_STOP_MARKER = some p) :
    render_code_block_output t out = t.take s ++ out ++ t.drop (p + 29) := by
  unfold render_code_block_output
  rw [pyFind_eq_some hs, pyFind_eq_some hp, stop_marker_len,
    show ((p : Int) + (29 : Nat)) = ((p + 29 : Nat) : Int) by push_cast; ring,
    pySliceTo_nat, pySliceFrom_nat]

theorem render_code_block_output_no_stop {t out : List Char} {s : Nat}
    (hs : strFind t AUTOMATED_START_MARKER = some s)
    (hp : strFind t AUTOMATED_STOP_MARKER = none) :
    render_code_block_output t out = t.take s ++ out ++ t.drop 28 := by
  unfold render_code_block_output
  rw [pyFind_eq_some hs, pyFind_eq_neg hp, stop_marker_len,
    show (-1 + ((29 : Nat) : Int)) = ((28 : Nat) : Int) by decide,
    pySliceTo_nat, pySliceFrom_nat]

theorem dropWhile_eq_drop (l : List Char) (p : Char → Bool) :
    l.dropWhile p = l.drop (l.takeWhile p).length := by
  induction l with
  | nil => rfl
  | cons a as ih =>
    by_cases h : p a
    · simp [List.dropWhile_cons, List.takeWhile_cons, h, ih]
    · simp [List.dropWhile_cons, List.takeWhile_cons, h]

theorem takeWhile_length_le {l : List Char} {q : Char → Bool} {k : Nat} {c : Char}
    (h : l[k]? = some c) (hq : q c = false) : (l.takeWhile q).length ≤ k := by
  induction l generalizing k with
  | nil => simp at h
  | cons a as ih =>
    by_cases ha : q a
    · cases k with
      | zero =>
        simp at h
        rw [h] at ha
        rw [ha] at hq
        simp at hq
      | succ k' =>
        simp only [List.getElem?_cons_succ] at h
        rw [List.takeWhile_cons, if_pos ha]
        have := ih h
        simp only [List.length_cons]
        omega
    · rw [List.takeWhile_cons, if_neg ha]
      simp

theorem startM_lt_only_zero : ∀ k, k < 31 → 0 < k → AUTOMATED_START_MARKER[k]? ≠ some '<' := by
  decide

theorem stopM_lt_only_zero : ∀ k, k < 29 → 0 < k → AUTOMATED_STOP_MARKER[k]? ≠ some '<' := by
  decide

theorem stopM_no_colon : ∀ k, k < 29 → AUTOMATED_STOP_MARKER[k]? ≠ some ':' := by decide

theorem inputDirective_no_lt : ∀ k, k < 8 → inputDirective[k]? ≠ some '<' := by decide

theorem inputDirective_get_zero : inputDirective[0]? = some ':' := rfl

theorem input_len : inputDirective.length = 8 := rfl

theorem startM_get_zero : AUTOMATED_START_MARKER[0]? = some '<' := rfl

theorem stopM_get_zero : AUTOMATED_STOP_MARKER[0]? = some '<' := rfl

theorem occursAt_take {pat t : List Char} {i m : Nat} (h : occursAt pat t i)
    (hm : i + pat.length ≤ m) : occursAt pat (t.take m) i := by
  obtain ⟨u, hu⟩ := occursAt_iff.mp h
  refine occursAt_iff.mpr ⟨u.take (m - i - pat.length), ?_⟩
  rw [List.drop_take, hu, List.take_append_eq_append_take,
    List.take_of_length_le (show pat.length ≤ m - i by omega),
    show m - i - pat.length = m - i - pat.length from rfl]

theorem occursAt_of_take {pat t : List Char} {i m : Nat} (h : occursAt pat (t.take m) i) :
    occursAt pat t i := by
  obtain ⟨u, hu⟩ := occursAt_iff.mp h
  rw [List.drop_take] at hu
  refine occursAt_iff.mpr ⟨u ++ (t.drop i).drop (m - i), ?_⟩
  conv_lhs => rw [← List.take_append_drop (m - i) (t.drop i)]
  rw [hu, List.append_assoc]

theorem outBlock_decomp (cs ho : List Char) : automatedOutputBlock cs ho =
    (AUTOMATED_START_MARKER ++ "\n```\x7bterminal\x7d\n:input: ".toList ++ cs ++ ('\n' :: ho)) ++
      ("\n```\n".toList ++ AUTOMATED_STOP_MARKER) := by
  simp [automatedOutputBlock, List.append_assoc]

theorem outBlock_decomp_stop (cs ho : List Char) : automatedOutputBlock cs ho =
    (AUTOMATED_START_MARKER ++ "\n```\x7bterminal\x7d\n:input: ".toList ++ cs ++ ('\n' :: ho) ++
      "\n```\n".toList) ++ AUTOMATED_STOP_MARKER := by
  simp [automatedOutputBlock, List.append_assoc]

theorem outBlock_decomp46 (cs ho : List Char) : automatedOutputBlock cs ho =
    "<!-- START AUTOMATED OUTPUT -->\n```\x7bterminal\x7d\n".toList ++
      (inputDirective ++ (cs ++ ('\n' :: (ho ++ ("\n```\n".toList ++ AUTOMATED_STOP_MARKER))))) := by
  have hc : AUTOMATED_START_MARKER ++ "\n```\x7bterminal\x7d\n:input: ".toList =
      "<!-- START AUTOMATED OUTPUT -->\n```\x7bterminal\x7d\n".toList ++ inputDirective := by decide
  unfold automatedOutputBlock
  rw [← List.append_assoc, hc]
  simp [List.append_assoc]

theorem outBlock_length (cs ho : List Char) :
    (automatedOutputBlock cs ho).length = 89 + cs.length + ho.length := by
  simp only [automatedOutputBlock, List.length_append, List.length_cons, start_marker_len,
    stop_marker_len, show ("\n```\x7bterminal\x7d\n:input: ".toList).length = 23 from rfl,
    show ("\n```\n".toList).length = 5 from rfl]
  omega

theorem outBlock_prefix_len (cs ho : List Char) :
    (AUTOMATED_START_MARKER ++ "\n```\x7bterminal\x7d\n:input: ".toList ++ cs ++
      ('\n' :: ho)).length = 55 + cs.length + ho.length := by
  simp only [List.length_append, List.length_cons, start_marker_len,
    show ("\n```\x7bterminal\x7d\n:input: ".toList).length = 23 from rfl]
  omega

theorem outBlock_start_occurs (cs ho : List Char) :
    occursAt AUTOMATED_START_MARKER (automatedOutputBlock cs ho) 0 := by
  unfold automatedOutputBlock
  exact occursAt_zero_iff.mpr (listPre_append _ _)

theorem outBlock_drop_stop (cs ho : List Char) :
    (automatedOutputBlock cs ho).drop (60 + cs.length + ho.length) = AUTOMATED_STOP_MARKER := by
  rw [outBlock_decomp_stop]
  apply List.drop_left'
  simp only [List.length_append, List.length_cons, start_marker_len,
    show ("\n```\x7bterminal\x7d\n:input: ".toList).length = 23 from rfl,
    show ("\n```\n".toList).length = 5 from rfl]
  omega

theorem outBlock_stop_occurs (cs ho : List Char) :
    occursAt AUTOMATED_STOP_MARKER (automatedOutputBlock cs ho) (60 + cs.length + ho.length) := by
  refine occursAt_iff.mpr ⟨[], ?_⟩
  rw [outBlock_drop_stop, List.append_nil]

theorem outBlock_newline (cs ho : List Char) :
    (automatedOutputBlock cs ho)[59 + cs.length + ho.length]? = some '\n' := by
  rw [outBlock_decomp, List.getElem?_append_right (by rw [outBlock_prefix_len]; omega),
    outBlock_prefix_len, show 59 + cs.length + ho.length - (55 + cs.length + ho.length) = 4
      by omega]
  rfl

theorem outBlock_get_zero (cs ho : List Char) :
    (automatedOutputBlock cs ho)[0]? = some '<' := by
  unfold automatedOutputBlock AUTOMATED_START_MARKER
  rfl

theorem render_code_block_cmd_eq_none {t cmd : List Char}
    (h : strFind t inputDirective = none) : render_code_block_cmd t cmd = t := by
  unfold render_code_block_cmd; rw [h]

theorem render_code_block_cmd_eq_some {t cmd : List Char} {i : Nat}
    (h : strFind t inputDirective = some i) :
    render_code_block_cmd t cmd =
      t.take i ++ inputDirective ++ cmd ++ (t.drop (i + 8)).dropWhile (fun c => c != '\n') := by
  unfold render_code_block_cmd; rw [h]

theorem drop_append_ge {X Y : List Char} {n : Nat} (h : X.length ≤ n) :
    (X ++ Y).drop n = Y.drop (n - X.length) := by
  rw [List.drop_append_eq_append_drop, List.drop_of_length_le h, List.nil_append]

theorem take_append_le {X Y : List Char} {n : Nat} (h : n ≤ X.length) :
    (X ++ Y).take n = X.take n := by
  rw [List.take_append_eq_append_take, Nat.sub_eq_zero_of_le h, List.take_zero,
    List.append_nil]

theorem occursAt_head {pat t : List Char} {i : Nat} {c : Char} (h : occursAt pat t i)
    (hc : pat[0]? = some c) : t[i]? = some c := by
  have hlen : 0 < pat.length := by
    cases pat with
    | nil => simp at hc
    | cons a as => simp
  have := occursAt_get h 0 hlen
  rw [Nat.add_zero] at this
  rw [this, hc]

/-- Shape of one merge on a well-formed document: the rewritten `:input:` line
lies inside the replaced span, so the merge amounts to splicing the generated
block over `D[s : p + 29]`. -/
theorem merge_shape {D cs ho : List Char} {s p : Nat}
    (hD : WellFormedDoc D s p) (hC : GoodContent cs ho) :
    mergeDoc cs (automatedOutputBlock cs ho) D =
      D.take s ++ automatedOutputBlock cs ho ++ D.drop (p + 29) := by
  obtain ⟨h1, h2, h3, h4, h5, h6, h8⟩ := hD
  have hsOcc : occursAt AUTOMATED_START_MARKER D s := strFind_some_occurs h1
  have hpOcc : occursAt AUTOMATED_STOP_MARKER D p := strFind_some_occurs h2
  have hsU := strFind_unique h1 h4
  have hpU := strFind_unique h2 h5
  have hsLen : s + 31 ≤ D.length := by
    have := occursAt_length hsOcc (by decide); rwa [start_marker_len] at this
  have hpLen : p + 29 ≤ D.length := by
    have := occursAt_length hpOcc (by decide); rwa [stop_marker_len] at this
  unfold mergeDoc
  cases hip : strFind D inputDirective with
  | none =>
    rw [render_code_block_cmd_eq_none hip]
    exact render_code_block_output_eq h1 h2
  | some i0 =>
    rw [render_code_block_cmd_eq_some hip]
    have hi0occ : occursAt inputDirective D i0 := strFind_some_occurs hip
    have hi0len : i0 + 8 ≤ D.length := by
      have := occursAt_length hi0occ (by decide)
      simpa using this
    obtain ⟨hi1, hi2⟩ := h6 i0 (by omega) hi0occ
    have h8' : (D.drop (i0 + 8))[p - 1 - (i0 + 8)]? = some '\n' := by
      rw [List.getElem?_drop, show i0 + 8 + (p - 1 - (i0 + 8)) = p - 1 by omega]
      exact h8
    have htw : ((D.drop (i0 + 8)).takeWhile (fun c => c != '\n')).length ≤ p - 1 - (i0 + 8) :=
      takeWhile_length_le h8' (by simp)
    set tw := ((D.drop (i0 + 8)).takeWhile (fun c => c != '\n')).length with htwdef
    set qq := i0 + 8 + tw with hqqdef
    have hWeq : (D.drop (i0 + 8)).dropWhile (fun c => c != '\n') = D.drop qq := by
      rw [dropWhile_eq_drop, ← htwdef, List.drop_drop, hqqdef]
    rw [hWeq]
    have hqqp : qq ≤ p - 1 := by omega
    set A := D.take i0 with hAdef
    set R := inputDirective ++ (cs ++ D.drop qq) with hRdef
    have hassoc : A ++ inputDirective ++ cs ++ D.drop qq = A ++ R := by
      rw [hRdef]; simp [List.append_assoc]
    rw [hassoc]
    have hAlen : A.length = i0 := List.length_take_of_le (by omega)
    set p1 := i0 + 8 + cs.length + (p - qq) with hp1def
    -- the start marker of A ++ R is found at s
    have hsOccT1 : occursAt AUTOMATED_START_MARKER (A ++ R) s := by
      apply occursAt_append_left
      exact occursAt_take hsOcc (by rw [start_marker_len]; omega)
    have hsLeast : ∀ j, j < s → ¬ occursAt AUTOMATED_START_MARKER (A ++ R) j := by
      intro j hj hocc
      have hocc' : occursAt AUTOMATED_START_MARKER A j :=
        occursAt_of_append_left hocc (by rw [start_marker_len, hAlen]; omega)
      have := hsU j (occursAt_of_take hocc')
      omega
    have hαfind : strFind (A ++ R) AUTOMATED_START_MARKER = some s :=
      strFind_of hsOccT1 hsLeast
    -- the stop marker of A ++ R is found at p1
    have hpOccW : occursAt AUTOMATED_STOP_MARKER (D.drop qq) (p - qq) := by
      apply occursAt_drop.mpr
      rw [show qq + (p - qq) = p by omega]
      exact hpOcc
    have hpOccT1 : occursAt AUTOMATED_STOP_MARKER (A ++ R) p1 := by
      have e1 : occursAt AUTOMATED_STOP_MARKER (cs ++ D.drop qq) (cs.length + (p - qq)) :=
        occursAt_append_right hpOccW
      have e2 : occursAt AUTOMATED_STOP_MARKER R (8 + (cs.length + (p - qq))) := by
        rw [hRdef]
        have := @occursAt_append_right AUTOMATED_STOP_MARKER inputDirective
          (cs ++ D.drop qq) (cs.length + (p - qq)) e1
        simpa using this
      have e3 := @occursAt_append_right AUTOMATED_STOP_MARKER A R
        (8 + (cs.length + (p - qq))) e2
      rw [hAlen, show i0 + (8 + (cs.length + (p - qq))) = p1 by omega] at e3
      exact e3
    have hpLeast : ∀ j, j < p1 → ¬ occursAt AUTOMATED_STOP_MARKER (A ++ R) j := by
      intro j hj hocc
      rcases Nat.lt_or_ge j i0 with hcase | hcase
      · -- j starts inside A
        rcases le_or_lt (j + 29) i0 with hin | hstr
        · -- fully inside A: a second stop-marker occurrence in D
          have hocc' : occursAt AUTOMATED_STOP_MARKER A j :=
            occursAt_of_append_left hocc (by rw [stop_marker_len, hAlen]; omega)
          have := hpU j (occursAt_of_take hocc')
          omega
        · -- straddles the boundary: position i0 of A ++ R holds ':'
          have hchar : (A ++ R)[i0]? = some ':' := by
            rw [List.getElem?_append_right (by omega), hAlen, Nat.sub_self, hRdef]
            rfl
          have := occursAt_char hocc hchar (by omega) (by rw [stop_marker_len]; omega)
          exact stopM_no_colon (i0 - j) (by omega) this
      · rcases Nat.lt_or_ge j (i0 + 8) with hcase2 | hcase2
        · -- j starts inside the ":input: " literal, which has no '<'
          have hchar : (A ++ R)[j]? = some '<' := occursAt_head hocc stopM_get_zero
          rw [List.getElem?_append_right (by omega), hAlen, hRdef,
            List.getElem?_append_left (by rw [input_len]; omega)] at hchar
          exact inputDirective_no_lt (j - i0) (by omega) hchar
        · rcases Nat.lt_or_ge j (i0 + 8 + cs.length) with hcase3 | hcase3
          · -- j starts inside cs, which has no '<'
            obtain ⟨hc1, hc2, _⟩ := hC
            have hchar : (A ++ R)[j]? = some '<' := occursAt_head hocc stopM_get_zero
            rw [List.getElem?_append_right (by omega), hAlen, hRdef,
              List.getElem?_append_right (by rw [input_len]; omega)] at hchar
            rw [List.getElem?_append_left (by rw [input_len]; omega)] at hchar
            exact hc2 '<' (List.getElem?_mem hchar) rfl
          · -- j starts inside the suffix D.drop qq: a second stop marker in D
            have hocc1 : occursAt AUTOMATED_STOP_MARKER R (j - i0) := by
              have := occursAt_of_append_right hocc (by omega)
              rwa [hAlen] at this
            have hocc2 : occursAt AUTOMATED_STOP_MARKER (cs ++ D.drop qq) (j - i0 - 8) := by
              have h9 := @occursAt_of_append_right AUTOMATED_STOP_MARKER inputDirective
                (cs ++ D.drop qq) (j - i0) (by rwa [hRdef] at hocc1)
                (by rw [input_len]; omega)
              rwa [input_len] at h9
            have hocc3 : occursAt AUTOMATED_STOP_MARKER (D.drop qq) (j - i0 - 8 - cs.length) :=
              occursAt_of_append_right hocc2 (by omega)
            have hocc4 : occursAt AUTOMATED_STOP_MARKER D (qq + (j - i0 - 8 - cs.length)) :=
              occursAt_drop.mp hocc3
            have := hpU _ hocc4
            omega
    have hβfind : strFind (A ++ R) AUTOMATED_STOP_MARKER = some p1 :=
      strFind_of hpOccT1 hpLeast
    rw [render_code_block_output_eq hαfind hβfind]
    -- prefix: (A ++ R).take s = D.take s
    have htake : (A ++ R).take s = D.take s := by
      rw [take_append_le (by omega), hAdef, List.take_take, min_eq_left (by omega)]
    -- suffix: (A ++ R).drop (p1 + 29) = D.drop (p + 29)
    have hdrop : (A ++ R).drop (p1 + 29) = D.drop (p + 29) := by
      rw [drop_append_ge (by omega), hAlen, hRdef,
        drop_append_ge (by rw [input_len]; omega)]
      rw [drop_append_ge (by rw [input_len]; omega)]
      rw [List.drop_drop]
      rw [show qq + (p1 + 29 - i0 - inputDirective.length - cs.length) = p + 29 by
        rw [input_len]; omega]
    rw [htake, hdrop]

theorem strFind_none_of {t pat : List Char} (h : ∀ j, ¬ occursAt pat t j) :
    strFind t pat = none := by
  cases hf : strFind t pat with
  | none => rfl
  | some i => exact absurd (strFind_some_occurs hf) (h i)

/-- After one merge, the document is well formed again: the start marker sits at
`s` and the stop marker at `s + 60 + |cs| + |ho|`. -/
theorem merged_wf {D cs ho : List Char} {s p : Nat}
    (hD : WellFormedDoc D s p) (hC : GoodContent cs ho) :
    WellFormedDoc (D.take s ++ automatedOutputBlock cs ho ++ D.drop (p + 29)) s
      (s + 60 + cs.length + ho.length) := by
  obtain ⟨h1, h2, h3, h4, h5, h6, h8⟩ := hD
  obtain ⟨hc1, hc2, hc3, hc4, hc5⟩ := hC
  have hsOcc : occursAt AUTOMATED_START_MARKER D s := strFind_some_occurs h1
  have hpOcc : occursAt AUTOMATED_STOP_MARKER D p := strFind_some_occurs h2
  have hsU := strFind_unique h1 h4
  have hpU := strFind_unique h2 h5
  have hsLen : s + 31 ≤ D.length := by
    have := occursAt_length hsOcc (by decide); rwa [start_marker_len] at this
  have hpLen : p + 29 ≤ D.length := by
    have := occursAt_length hpOcc (by decide); rwa [stop_marker_len] at this
  have hAlen : (D.take s).length = s := List.length_take_of_le (by omega)
  have houtlen : (automatedOutputBlock cs ho).length = 89 + cs.length + ho.length :=
    outBlock_length cs ho
  have hDp : D.drop p = AUTOMATED_STOP_MARKER ++ D.drop (p + 29) := by
    obtain ⟨u, hu⟩ := occursAt_iff.mp hpOcc
    have h29 := congrArg (List.drop 29) hu
    rw [List.drop_drop, List.drop_left' (by rw [stop_marker_len])] at h29
    rw [hu, ← h29]
  have hfrontlen : (AUTOMATED_START_MARKER ++ "\n```\x7bterminal\x7d\n:input: ".toList ++ cs ++
      ('\n' :: ho) ++ "\n```\n".toList).length = 60 + cs.length + ho.length := by
    simp only [List.length_append, List.length_cons, start_marker_len,
      show ("\n```\x7bterminal\x7d\n:input: ".toList).length = 23 from rfl,
      show ("\n```\n".toList).length = 5 from rfl]
    omega
  unfold WellFormedDoc
  simp only [List.append_assoc]
  have hMdrop : (D.take s ++ (automatedOutputBlock cs ho ++ D.drop (p + 29))).drop
      (s + 60 + cs.length + ho.length) = D.drop p := by
    rw [drop_append_ge (by omega), hAlen,
      show s + 60 + cs.length + ho.length - s = 60 + cs.length + ho.length by omega,
      outBlock_decomp_stop, List.append_assoc, List.drop_left' (by rw [hfrontlen]), ← hDp]
  have hMs : (D.take s ++ (automatedOutputBlock cs ho ++ D.drop (p + 29)))[s]? = some '<' := by
    rw [List.getElem?_append_right (by omega), hAlen, Nat.sub_self,
      List.getElem?_append_left (by omega), outBlock_get_zero]
  -- transfer: occurrence wholly inside the prefix
  have hInA : ∀ {pat : List Char} {j : Nat},
      occursAt pat (D.take s ++ (automatedOutputBlock cs ho ++ D.drop (p + 29))) j →
      j + pat.length ≤ s → occursAt pat D j := by
    intro pat j hocc hj
    exact occursAt_of_take (occursAt_of_append_left hocc (by omega))
  -- transfer: occurrence wholly inside the block
  have hInOut : ∀ {pat : List Char} {j : Nat},
      occursAt pat (D.take s ++ (automatedOutputBlock cs ho ++ D.drop (p + 29))) j →
      s ≤ j → j + pat.length ≤ s + (89 + cs.length + ho.length) →
      occursAt pat (automatedOutputBlock cs ho) (j - s) := by
    intro pat j hocc hjs hjl
    have e1 := occursAt_of_append_right hocc (by omega)
    rw [hAlen] at e1
    exact occursAt_of_append_left e1 (by omega)
  -- transfer: occurrence at or after the final stop marker
  have hInSuffix : ∀ {pat : List Char} {j : Nat},
      occursAt pat (D.take s ++ (automatedOutputBlock cs ho ++ D.drop (p + 29))) j →
      s + 60 + cs.length + ho.length ≤ j →
      occursAt pat D (p + (j - (s + 60 + cs.length + ho.length))) := by
    intro pat j hocc hj
    have e1 : occursAt pat ((D.take s ++ (automatedOutputBlock cs ho ++
        D.drop (p + 29))).drop (s + 60 + cs.length + ho.length))
        (j - (s + 60 + cs.length + ho.length)) := by
      apply occursAt_drop.mpr
      rw [show s + 60 + cs.length + ho.length + (j - (s + 60 + cs.length + ho.length)) = j
        by omega]
      exact hocc
    rw [hMdrop] at e1
    exact occursAt_drop.mp e1
  have hNl : (D.take s ++ (automatedOutputBlock cs ho ++ D.drop (p + 29)))[s + 59 +
      cs.length + ho.length]? = some '\n' := by
    rw [List.getElem?_append_right (by omega), hAlen,
      List.getElem?_append_left (by omega),
      show s + 59 + cs.length + ho.length - s = 59 + cs.length + ho.length by omega,
      outBlock_newline]
  refine ⟨?_, ?_, by omega, ?_, ?_, ?_, ?_⟩
  · -- start marker found at s
    apply strFind_of
    · have e1 : occursAt AUTOMATED_START_MARKER
          (automatedOutputBlock cs ho ++ D.drop (p + 29)) 0 :=
        occursAt_append_left (outBlock_start_occurs cs ho)
      have e2 := @occursAt_append_right AUTOMATED_START_MARKER (D.take s)
        (automatedOutputBlock cs ho ++ D.drop (p + 29)) 0 e1
      rwa [hAlen, Nat.add_zero] at e2
    · intro j hj hocc
      rcases le_or_lt (j + 31) s with hin | hstr
      · have := hsU j (hInA hocc (by rw [start_marker_len]; omega))
        omega
      · have := occursAt_char hocc hMs (by omega) (by rw [start_marker_len]; omega)
        exact startM_lt_only_zero (s - j) (by omega) (by omega) this
  · -- stop marker found at s + 60 + |cs| + |ho|
    apply strFind_of
    · refine occursAt_iff.mpr ⟨D.drop (p + 29), ?_⟩
      rw [hMdrop, hDp]
    · intro j hj hocc
      rcases le_or_lt (j + 29) s with hin | hstr
      · have := hpU j (hInA hocc (by rw [stop_marker_len]; omega))
        omega
      · rcases lt_or_ge j s with hjs | hjs
        · have := occursAt_char hocc hMs (by omega) (by rw [stop_marker_len]; omega)
          exact stopM_lt_only_zero (s - j) (by omega) (by omega) this
        · have e1 := hInOut hocc hjs (by rw [stop_marker_len]; omega)
          have := hc3 (j - s) (by omega) e1
          omega
  · -- no further start marker after position s
    apply strFind_none_of
    intro k hocc0
    have hocc := occursAt_drop.mp hocc0
    rcases le_or_lt (s + 1 + k + 31) (s + (89 + cs.length + ho.length)) with hin | hout
    · have e1 := hInOut hocc (by omega) (by rw [start_marker_len]; omega)
      have := hc4 (s + 1 + k - s) (by omega) e1
      omega
    · rcases le_or_lt (s + 60 + cs.length + ho.length) (s + 1 + k) with hsuf | hmid
      · have := hsU _ (hInSuffix hocc hsuf)
        omega
      · -- the single straddling position carries the newline before the stop marker
        have hj : s + 1 + k = s + 59 + cs.length + ho.length := by omega
        have := occursAt_head hocc startM_get_zero
        rw [hj, hNl] at this
        simp at this
  · -- no further stop marker after position s + 60 + |cs| + |ho|
    apply strFind_none_of
    intro k hocc0
    have hocc := occursAt_drop.mp hocc0
    have := hpU _ (hInSuffix hocc (by omega))
    omega
  · -- all ":input: " directives lie inside the new region
    intro i hi hocc
    rcases le_or_lt (i + 8) s with hin | h1'
    · have := h6 i (by omega) (hInA hocc (by rw [input_len]; omega))
      omega
    · rcases lt_or_ge i s with his | his
      · have := occursAt_char hocc hMs (by omega) (by rw [input_len]; omega)
        exact absurd this (inputDirective_no_lt (s - i) (by omega))
      · rcases le_or_lt (i + 8) (s + (89 + cs.length + ho.length)) with hin2 | hout2
        · have e1 := hInOut hocc his (by rw [input_len]; omega)
          have := hc5 (i - s) (by omega) e1
          omega
        · have e2 := hInSuffix hocc (by omega)
          have hlt : p + (i - (s + 60 + cs.length + ho.length)) < D.length := by
            have := occursAt_length e2 (by decide)
            rw [input_len] at this
            omega
          have := h6 _ hlt e2
          omega
  · -- the character before the new stop marker is a newline
    rw [show s + 60 + cs.length + ho.length - 1 = s + 59 + cs.length + ho.length by omega]
    exact hNl

theorem pyFormatSubst_TEMPLATE (c d : List Char) :
    pyFormatSubst TEMPLATE c d = some (formattedDoc c d) := by rfl

theorem tplK1_len : tplK1.length = 18 := rfl

theorem tplK2_len : tplK2.length = 13 := rfl

theorem tplK3_len : tplK3.length = 10 := rfl

theorem tplK4_len : tplK4.length = 111 := rfl

theorem getElem?_append_cases {X Y : List Char} {j : Nat} {ch : Char}
    (h : (X ++ Y)[j]? = some ch) :
    (j < X.length ∧ X[j]? = some ch) ∨ (X.length ≤ j ∧ Y[j - X.length]? = some ch) := by
  rcases lt_or_ge j X.length with hj | hj
  · exact Or.inl ⟨hj, by rwa [List.getElem?_append_left hj] at h⟩
  · exact Or.inr ⟨hj, by rwa [List.getElem?_append_right hj] at h⟩

theorem getElem?_some_lt {l : List Char} {j : Nat} {a : Char} (h : l[j]? = some a) :
    j < l.length := by
  by_contra hge
  rw [List.getElem?_eq_none (by omega)] at h
  simp at h

theorem formatted_char_cases {c d : List Char} {j : Nat} {ch : Char}
    (h : (formattedDoc c d)[j]? = some ch) :
    (j < 18 ∧ tplK1[j]? = some ch) ∨ (ch ∈ c) ∨
    (∃ k, k < 13 ∧ tplK2[k]? = some ch) ∨ (ch ∈ d) ∨
    (∃ k, k < 10 ∧ tplK3[k]? = some ch) ∨
    (∃ k, k < 111 ∧ j = 41 + 2 * c.length + d.length + k ∧ tplK4[k]? = some ch) := by
  unfold formattedDoc at h
  rcases getElem?_append_cases h with ⟨hj, h1⟩ | ⟨hj, h1⟩
  · exact Or.inl ⟨by rwa [tplK1_len] at hj, h1⟩
  · rw [tplK1_len] at hj h1
    rcases getElem?_append_cases h1 with ⟨hj2, h2⟩ | ⟨hj2, h2⟩
    · exact Or.inr (Or.inl (List.getElem?_mem h2))
    · rcases getElem?_append_cases h2 with ⟨hj3, h3⟩ | ⟨hj3, h3⟩
      · exact Or.inr (Or.inr (Or.inl ⟨_, by rwa [tplK2_len] at hj3, h3⟩))
      · rw [tplK2_len] at hj3 h3
        rcases getElem?_append_cases h3 with ⟨hj4, h4⟩ | ⟨hj4, h4⟩
        · exact Or.inr (Or.inl (List.getElem?_mem h4))
        · rcases getElem?_append_cases h4 with ⟨hj5, h5⟩ | ⟨hj5, h5⟩
          · exact Or.inr (Or.inr (Or.inr (Or.inr (Or.inl
              ⟨_, by rwa [tplK3_len] at hj5, h5⟩))))
          · rw [tplK3_len] at hj5 h5
            rcases getElem?_append_cases h5 with ⟨hj6, h6⟩ | ⟨hj6, h6⟩
            · exact Or.inr (Or.inr (Or.inr (Or.inl (List.getElem?_mem h6))))
            · refine Or.inr (Or.inr (Or.inr (Or.inr (Or.inr ?_))))
              refine ⟨j - 18 - c.length - 13 - c.length - 10 - d.length, ?_, by omega, ?_⟩
              · have := getElem?_some_lt h6
                rw [tplK4_len] at this
                omega
              · exact h6

theorem tplK1_no_lt : ∀ k, k < 18 → tplK1[k]? ≠ some '<' := by decide

theorem tplK2_no_lt : ∀ k, k < 13 → tplK2[k]? ≠ some '<' := by decide

theorem tplK3_no_lt : ∀ k, k < 10 → tplK3[k]? ≠ some '<' := by decide

theorem tplK4_lt_pos : ∀ k, k < 111 → tplK4[k]? = some '<' → k = 12 ∨ k = 81 := by decide

theorem tplK1_no_lb : ∀ k, k < 18 → tplK1[k]? ≠ some lbrace := by decide

theorem tplK2_no_lb : ∀ k, k < 13 → tplK2[k]? ≠ some lbrace := by decide

theorem tplK3_no_lb : ∀ k, k < 10 → tplK3[k]? ≠ some lbrace := by decide

theorem tplK4_lb_pos : ∀ k, k < 111 → tplK4[k]? = some lbrace → k = 47 := by decide

theorem tplK4_drop12 : tplK4.drop 12 = AUTOMATED_START_MARKER ++
    ("\n```\x7bterminal\x7d\n   :input: command\n```\n".toList ++
      (AUTOMATED_STOP_MARKER ++ "\n".toList)) := by decide

theorem tplK4_drop81 : tplK4.drop 81 = AUTOMATED_STOP_MARKER ++ "\n".toList := by decide

theorem tplK4_get86 : tplK4[86]? = some 'E' := rfl

theorem tplK4_get17 : tplK4[17]? = some 'S' := rfl

theorem tplK4_get48 : tplK4[48]? = some 't' := rfl

theorem formatted_decomp (c d : List Char) : formattedDoc c d =
    (tplK1 ++ c ++ tplK2 ++ c ++ tplK3 ++ d) ++ tplK4 := by
  simp [formattedDoc, List.append_assoc]

theorem formatted_prefix_len (c d : List Char) :
    (tplK1 ++ c ++ tplK2 ++ c ++ tplK3 ++ d).length = 41 + 2 * c.length + d.length := by
  simp only [List.length_append, tplK1_len, tplK2_len, tplK3_len]
  omega

theorem formatted_get_base (c d : List Char) (k : Nat) :
    (formattedDoc c d)[41 + 2 * c.length + d.length + k]? = tplK4[k]? := by
  rw [formatted_decomp, List.getElem?_append_right (by rw [formatted_prefix_len]; omega),
    formatted_prefix_len]
  congr 1
  omega

theorem formatted_drop_base (c d : List Char) (k : Nat) :
    (formattedDoc c d).drop (41 + 2 * c.length + d.length + k) = tplK4.drop k := by
  rw [formatted_decomp, drop_append_ge (by rw [formatted_prefix_len]; omega),
    formatted_prefix_len]
  congr 1
  omega

theorem formatted_start_iff {c d : List Char} (hc : ∀ x ∈ c, x ≠ '<')
    (hd : ∀ x ∈ d, x ≠ '<') (i : Nat) :
    occursAt AUTOMATED_START_MARKER (formattedDoc c d) i ↔
      i = 41 + 2 * c.length + d.length + 12 := by
  constructor
  · intro hocc
    have hch := occursAt_head hocc startM_get_zero
    rcases formatted_char_cases hch with ⟨hj, h1⟩ | h1 | ⟨k, hk, h1⟩ | h1 | ⟨k, hk, h1⟩ |
      ⟨k, hk, heq, h1⟩
    · exact absurd h1 (tplK1_no_lt i hj)
    · exact absurd rfl (hc _ h1)
    · exact absurd h1 (tplK2_no_lt k hk)
    · exact absurd rfl (hd _ h1)
    · exact absurd h1 (tplK3_no_lt k hk)
    · rcases tplK4_lt_pos k hk h1 with rfl | rfl
      · omega
      · exfalso
        have h5 := occursAt_get hocc 5 (by rw [start_marker_len]; omega)
        rw [heq, show 41 + 2 * c.length + d.length + 81 + 5 =
          41 + 2 * c.length + d.length + 86 by omega, formatted_get_base, tplK4_get86,
          show AUTOMATED_START_MARKER[5]? = some 'S' from rfl] at h5
        simp at h5
  · rintro rfl
    refine occursAt_iff.mpr ⟨"\n```\x7bterminal\x7d\n   :input: command\n```\n".toList ++
      (AUTOMATED_STOP_MARKER ++ "\n".toList), ?_⟩
    rw [formatted_drop_base, tplK4_drop12]

theorem formatted_stop_iff {c d : List Char} (hc : ∀ x ∈ c, x ≠ '<')
    (hd : ∀ x ∈ d, x ≠ '<') (i : Nat) :
    occursAt AUTOMATED_STOP_MARKER (formattedDoc c d) i ↔
      i = 41 + 2 * c.length + d.length + 81 := by
  constructor
  · intro hocc
    have hch := occursAt_head hocc stopM_get_zero
    rcases formatted_char_cases hch with ⟨hj, h1⟩ | h1 | ⟨k, hk, h1⟩ | h1 | ⟨k, hk, h1⟩ |
      ⟨k, hk, heq, h1⟩
    · exact absurd h1 (tplK1_no_lt i hj)
    · exact absurd rfl (hc _ h1)
    · exact absurd h1 (tplK2_no_lt k hk)
    · exact absurd rfl (hd _ h1)
    · exact absurd h1 (tplK3_no_lt k hk)
    · rcases tplK4_lt_pos k hk h1 with rfl | rfl
      · exfalso
        have h5 := occursAt_get hocc 5 (by rw [stop_marker_len]; omega)
        rw [heq, show 41 + 2 * c.length + d.length + 12 + 5 =
          41 + 2 * c.length + d.length + 17 by omega, formatted_get_base, tplK4_get17,
          show AUTOMATED_STOP_MARKER[5]? = some 'E' from rfl] at h5
        simp at h5
      · omega
  · rintro rfl
    refine occursAt_iff.mpr ⟨"\n".toList, ?_⟩
    rw [formatted_drop_base, tplK4_drop81]

theorem formatted_no_placeholder {c d : List Char} (hc : ∀ x ∈ c, x ≠ lbrace)
    (hd : ∀ x ∈ d, x ≠ lbrace) (i : Nat) :
    ¬ occursAt phCommand (formattedDoc c d) i ∧
      ¬ occursAt phDescription (formattedDoc c d) i := by
  have hpos : ∀ pat : List Char, pat[0]? = some lbrace → pat[1]? = some 'c' ∨
      pat[1]? = some 'd' → occursAt pat (formattedDoc c d) i → False := by
    intro pat h0 h1 hocc
    have hch := occursAt_head hocc h0
    rcases formatted_char_cases hch with ⟨hj, e1⟩ | e1 | ⟨k, hk, e1⟩ | e1 | ⟨k, hk, e1⟩ |
      ⟨k, hk, heq, e1⟩
    · exact absurd e1 (tplK1_no_lb i hj)
    · exact absurd rfl (hc _ e1)
    · exact absurd e1 (tplK2_no_lb k hk)
    · exact absurd rfl (hd _ e1)
    · exact absurd e1 (tplK3_no_lb k hk)
    · have hk47 := tplK4_lb_pos k hk e1
      subst hk47
      have hlen : 1 < pat.length := by
        rcases h1 with h1 | h1 <;> exact getElem?_some_lt h1
      have h5 := occursAt_get hocc 1 hlen
      rw [heq, show 41 + 2 * c.length + d.length + 47 + 1 =
        41 + 2 * c.length + d.length + 48 by omega, formatted_get_base, tplK4_get48] at h5
      rcases h1 with h1 | h1 <;> rw [h1] at h5 <;> simp at h5
  constructor
  · exact hpos phCommand (by decide) (Or.inl (by decide))
  · exact hpos phDescription (by decide) (Or.inr (by decide))

theorem cmpNat_swap (a b : Nat) : cmpNat a b = (cmpNat b a).swap := by
  unfold cmpNat
  rcases Nat.lt_trichotomy a b with h | rfl | h
  · rw [if_pos h, if_neg (by omega), if_pos h]; rfl
  · rw [if_neg (by omega), if_neg (by omega)]; rfl
  · rw [if_neg (by omega), if_pos h, if_pos h]; rfl

theorem cmpChar_swap (a b : Char) : cmpChar a b = (cmpChar b a).swap := cmpNat_swap _ _

theorem cmpList_swap {α : Type} (cmp : α → α → Ordering)
    (hswap : ∀ x y, cmp x y = (cmp y x).swap) :
    ∀ a b, cmpList cmp a b = (cmpList cmp b a).swap := by
  intro a
  induction a with
  | nil => intro b; cases b <;> rfl
  | cons x xs ih =>
    intro b
    cases b with
    | nil => rfl
    | cons y ys =>
      simp only [cmpList]
      rw [hswap x y]
      cases hcmp : cmp y x with
      | lt => rfl
      | eq => simpa [Ordering.swap] using ih ys
      | gt => rfl

theorem entryLe_total (a b : List (List Char)) : entryLe a b = true ∨ entryLe b a = true := by
  unfold entryLe
  rw [cmpList_swap _ (cmpList_swap _ cmpChar_swap) a b]
  cases cmpList (cmpList cmpChar) b a <;> simp [Ordering.swap]

theorem insertLe_head {α : Type} (le : α → α → Bool) (x : α) (l : List α) :
    (insertLe le x l).head? = some x ∨ (insertLe le x l).head? = l.head? := by
  cases l with
  | nil => left; rfl
  | cons b bs =>
    by_cases hxb : le x b
    · left; simp [insertLe, hxb]
    · right; simp [insertLe, hxb]

theorem chain_insertLe {α : Type} (le : α → α → Bool)
    (htot : ∀ a b, le a b = true ∨ le b a = true) (x : α) :
    ∀ l, List.Chain' (fun a b => le a b = true) l →
      List.Chain' (fun a b => le a b = true) (insertLe le x l) := by
  intro l
  induction l with
  | nil => intro _; simp [insertLe]
  | cons b bs ih =>
    intro hch
    obtain ⟨hhead, htail⟩ := List.chain'_cons'.mp hch
    by_cases hxb : le x b = true
    · simp only [insertLe, if_pos hxb]
      exact List.chain'_cons'.mpr ⟨by intro y hy; simp at hy; exact hy ▸ hxb, hch⟩
    · simp only [insertLe, if_neg hxb]
      have hbx : le b x = true := (htot x b).resolve_left hxb
      refine List.chain'_cons'.mpr ⟨?_, ih htail⟩
      intro y hy
      rcases insertLe_head le x bs with hh | hh
      · rw [hh] at hy
        simp at hy
        exact hy ▸ hbx
      · rw [hh] at hy
        exact hhead y hy

theorem perm_insertLe {α : Type} (le : α → α → Bool) (x : α) (l : List α) :
    List.Perm (insertLe le x l) (x :: l) := by
  induction l with
  | nil => exact List.Perm.refl _
  | cons b bs ih =>
    by_cases hxb : le x b
    · simp [insertLe, hxb]
    · simp only [insertLe, if_neg hxb]
      exact (ih.cons b).trans (List.Perm.swap x b bs)

theorem perm_pySorted {α : Type} (le : α → α → Bool) (l : List α) :
    List.Perm (pySorted le l) l := by
  induction l with
  | nil => exact List.Perm.refl _
  | cons x xs ih => exact (perm_insertLe le x (pySorted le xs)).trans (ih.cons x)

theorem chain_pySorted {α : Type} (le : α → α → Bool)
    (htot : ∀ a b, le a b = true ∨ le b a = true) (l : List α) :
    List.Chain' (fun a b => le a b = true) (pySorted le l) := by
  induction l with
  | nil => trivial
  | cons x xs ih => exact chain_insertLe le htot x _ ih

/-- C1 counterexample: a document that contains both markers (the pair), but with
the stop marker first; the merge then duplicates text instead of being
idempotent. -/
theorem C1_counterexample :
    occursAt AUTOMATED_START_MARKER docStopStart 29 ∧
    occursAt AUTOMATED_STOP_MARKER docStopStart 0 ∧
    mergeDoc demoCmdStr (automatedOutputBlock demoCmdStr demoHelp)
        (mergeDoc demoCmdStr (automatedOutputBlock demoCmdStr demoHelp) docStopStart) ≠
      mergeDoc demoCmdStr (automatedOutputBlock demoCmdStr demoHelp) docStopStart := by
  decide

/-- C1 (amended): the merge is idempotent on well-formed documents (unique
markers, start before stop, stop marker preceded by a newline, `:input:`
directives only inside the region) for well-behaved generated content. -/
theorem C1_idempotent_amended {D cs ho : List Char} {s p : Nat}
    (hD : WellFormedDoc D s p) (hC : GoodContent cs ho) :
    mergeDoc cs (automatedOutputBlock cs ho)
        (mergeDoc cs (automatedOutputBlock cs ho) D) =
      mergeDoc cs (automatedOutputBlock cs ho) D := by
  rw [merge_shape hD hC, merge_shape (merged_wf hD hC) hC]
  obtain ⟨h1, _, _, _, _, _, _⟩ := hD
  have hsOcc := strFind_some_occurs h1
  have hsLen : s + 31 ≤ D.length := by
    have := occursAt_length hsOcc (by decide); rwa [start_marker_len] at this
  have hAlen : (D.take s).length = s := List.length_take_of_le (by omega)
  have houtlen := outBlock_length cs ho
  have htake : (D.take s ++ automatedOutputBlock cs ho ++ D.drop (p + 29)).take s =
      D.take s := by
    rw [take_append_le (by rw [List.length_append, hAlen]; omega),
      take_append_le (by omega), List.take_take, min_self]
  have hdrop : (D.take s ++ automatedOutputBlock cs ho ++ D.drop (p + 29)).drop
      (s + 60 + cs.length + ho.length + 29) = D.drop (p + 29) := by
    rw [show s + 60 + cs.length + ho.length + 29 =
      (D.take s ++ automatedOutputBlock cs ho).length by
        rw [List.length_append, hAlen, houtlen]; omega]
    exact List.drop_left _ _
  rw [htake, hdrop]

/-- C1 witness: the amended idempotence applied to a concrete well-formed
document and concrete generated content. -/
theorem C1_witness :
    WellFormedDoc wfDoc1 4 46 ∧ GoodContent demoCmdStr demoHelp ∧
    mergeDoc demoCmdStr (automatedOutputBlock demoCmdStr demoHelp)
        (mergeDoc demoCmdStr (automatedOutputBlock demoCmdStr demoHelp) wfDoc1) =
      mergeDoc demoCmdStr (automatedOutputBlock demoCmdStr demoHelp) wfDoc1 :=
  ⟨by decide, by decide,
    @C1_idempotent_amended wfDoc1 demoCmdStr demoHelp 4 46 (by decide) (by decide)⟩

/-- C2 counterexample: the full merge rewrites the first `:input:` line even when
it lies before the resolved span `[10, 70)`, so the character at position 8
changes. -/
theorem C2_counterexample :
    strFind docInputBefore AUTOMATED_START_MARKER = some 10 ∧
    strFind docInputBefore AUTOMATED_STOP_MARKER = some 41 ∧
    8 < 10 ∧
    (mergeDoc demoCmdStr (automatedOutputBlock demoCmdStr demoHelp) docInputBefore)[8]? ≠
      docInputBefore[8]? := by
  decide

/-- C2 (amended): `render_code_block_output` alone is isolated to the resolved
span `[s, p + 29)`: the text before `s` survives as a prefix and the text from
`p + 29` on survives as the suffix; the `:input:` rewrite of the full merge is
what can touch text outside the span. -/
theorem C2_isolation_amended {D out : List Char} {s p : Nat}
    (hs : strFind D AUTOMATED_START_MARKER = some s)
    (hp : strFind D AUTOMATED_STOP_MARKER = some p) :
    render_code_block_output D out = D.take s ++ out ++ D.drop (p + 29) ∧
    (render_code_block_output D out).take s = D.take s ∧
    (render_code_block_output D out).drop (s + out.length) = D.drop (p + 29) := by
  have hsOcc := strFind_some_occurs hs
  have hsLen : s + 31 ≤ D.length := by
    have := occursAt_length hsOcc (by decide); rwa [start_marker_len] at this
  have hAlen : (D.take s).length = s := List.length_take_of_le (by omega)
  have he := @render_code_block_output_eq D out s p hs hp
  refine ⟨he, ?_, ?_⟩
  · rw [he, take_append_le (by rw [List.length_append, hAlen]; omega),
      take_append_le (by omega), List.take_take, min_self]
  · rw [he, show s + out.length = (D.take s ++ out).length by
      rw [List.length_append, hAlen]]
    exact List.drop_left _ _

/-- C2 witness: the amended isolation at a concrete document. -/
theorem C2_witness :
    render_code_block_output wfDoc1 (automatedOutputBlock demoCmdStr demoHelp) =
      wfDoc1.take 4 ++ automatedOutputBlock demoCmdStr demoHelp ++ wfDoc1.drop 75 ∧
    (render_code_block_output wfDoc1 (automatedOutputBlock demoCmdStr demoHelp)).take 4 =
      wfDoc1.take 4 ∧
    (render_code_block_output wfDoc1 (automatedOutputBlock demoCmdStr demoHelp)).drop
        (4 + (automatedOutputBlock demoCmdStr demoHelp).length) = wfDoc1.drop 75 :=
  @C2_isolation_amended wfDoc1 (automatedOutputBlock demoCmdStr demoHelp) 4 46
    (by decide) (by decide)

/-- C3 counterexample: a document containing the start marker but no stop marker
contains no marker pair, yet `process_command` does not skip it and rewrites it. -/
theorem C3_counterexample :
    strFind docStartOnly AUTOMATED_STOP_MARKER = none ∧
    process_command_text true "exec".toList "Run things.".toList demoHelp docStartOnly ≠
      MergeOutcome.skipped ∧
    process_command_text true "exec".toList "Run things.".toList demoHelp docStartOnly ≠
      MergeOutcome.wrote docStartOnly := by
  decide

/-- C3 (amended): `process_command` skips an existing document exactly when the
start marker is absent; the skip leaves the stored text untouched (no write). -/
theorem C3_skip_amended (cmd description capture text : List Char)
    (h : strFind text AUTOMATED_START_MARKER = none) :
    process_command_text true cmd description capture text = MergeOutcome.skipped := by
  unfold process_command_text
  rw [h]
  rfl

/-- C3 witness: a document with no marker at all is skipped. -/
theorem C3_witness :
    process_command_text true "exec".toList "Run things.".toList demoHelp
      "# hand-written page\n".toList = MergeOutcome.skipped :=
  C3_skip_amended _ _ _ _ (by decide)

/-- C4 counterexample: with the stop marker absent (so the spec's resolver would
report the region absent), the code still replaces text: `find` returns `-1`,
the end position becomes `28`, and the document is rewritten, not skipped. -/
theorem C4_counterexample :
    strFind docStartNoStop AUTOMATED_STOP_MARKER = none ∧
    render_code_block_output docStartNoStop (automatedOutputBlock demoCmdStr demoHelp) ≠
      docStartNoStop ∧
    render_code_block_output docStartNoStop (automatedOutputBlock demoCmdStr demoHelp) =
      docStartNoStop.take 2 ++ automatedOutputBlock demoCmdStr demoHelp ++
        docStartNoStop.drop 28 ∧
    process_command_text true "exec".toList "Run things.".toList demoHelp docStartNoStop ≠
      MergeOutcome.skipped := by
  decide

/-- C4 (amended): the resolved span runs from the first start-marker occurrence
through the first stop-marker occurrence inclusive (independent scans); the
document is reported absent/skipped only when the START marker is missing; when
only the stop marker is missing the replacement still happens, with end
position `-1 + 29 = 28`. -/
theorem C4_resolver_amended :
    (∀ (D out : List Char) (s p : Nat), strFind D AUTOMATED_START_MARKER = some s →
      strFind D AUTOMATED_STOP_MARKER = some p →
      render_code_block_output D out = D.take s ++ out ++ D.drop (p + 29)) ∧
    (∀ cmd description capture text : List Char,
      strFind text AUTOMATED_START_MARKER = none →
      process_command_text true cmd description capture text = MergeOutcome.skipped) ∧
    (∀ (D out : List Char) (s : Nat), strFind D AUTOMATED_START_MARKER = some s →
      strFind D AUTOMATED_STOP_MARKER = none →
      render_code_block_output D out = D.take s ++ out ++ D.drop 28) := by
  refine ⟨fun D out s p hs hp => render_code_block_output_eq hs hp,
    fun cmd description capture text h => ?_,
    fun D out s hs hp => render_code_block_output_no_stop hs hp⟩
  unfold process_command_text
  rw [h]
  rfl

/-- C4 witness: the three resolver behaviours at concrete documents. -/
theorem C4_witness :
    render_code_block_output wfDoc1 demoHelp = wfDoc1.take 4 ++ demoHelp ++ wfDoc1.drop 75 ∧
    process_command_text true "a".toList "b".toList "c".toList "plain".toList =
      MergeOutcome.skipped ∧
    render_code_block_output docStartOnly demoHelp =
      docStartOnly.take 0 ++ demoHelp ++ docStartOnly.drop 28 :=
  ⟨C4_resolver_amended.1 wfDoc1 demoHelp 4 46 (by decide) (by decide),
    C4_resolver_amended.2.1 _ _ _ _ (by decide),
    C4_resolver_amended.2.2 docStartOnly demoHelp 0 (by decide) (by decide)⟩

/-- C5 counterexample: `sorted` does not deduplicate, so duplicated input lines
yield a repeated identifier — the result is not a sequence of distinct
identifiers. -/
theorem C5_counterexample :
    get_all_commands "    a\n    a\n".toList = [["a".toList], ["a".toList]] ∧
    ¬ ((get_all_commands "    a\n    a\n".toList).map (fun e => e.headD [])).Nodup := by
  decide

/-- C5 (amended): the enumerator returns the `split(maxsplit=1)` parses of the
four-space-indented lines, in lexicographically non-decreasing order (a
permutation of the parsed lines, duplicates preserved); on
`"    foo\n    bar\n"` it returns exactly `bar`, `foo` in that order. -/
theorem C5_enumerator_amended :
    get_all_commands "    foo\n    bar\n".toList = [["bar".toList], ["foo".toList]] ∧
    (∀ stdout : List Char,
      List.Chain' (fun a b => entryLe a b = true) (get_all_commands stdout)) ∧
    (∀ stdout : List Char, List.Perm (get_all_commands stdout)
      (((splitlines stdout).filter fun l => listPre "    ".toList l).map pySplitMax1)) :=
  ⟨by decide, fun _ => chain_pySorted _ entryLe_total _, fun _ => perm_pySorted _ _⟩

/-- C6: the constructed invocations append `--help` except for the `help`
command itself, and the generated block records the same human-facing
invocation string on its `:input:` line (at offset 46). -/
theorem C6_help_special_case :
    (∀ cmd : List Char, help_cmd_str cmd =
      if cmd = "help".toList then "pebble help".toList
      else "pebble ".toList ++ cmd ++ " --help".toList) ∧
    (∀ cmd : List Char, go_run_cmd_str cmd =
      if cmd = "help".toList then "go run ../cmd/pebble help".toList
      else "go run ../cmd/pebble ".toList ++ cmd ++ " --help".toList) ∧
    (∀ cmd capture : List Char,
      occursAt (inputDirective ++ (help_cmd_str cmd ++ ['\n']))
        (generate_help_command_and_output cmd capture).2 46) := by
  refine ⟨?_, ?_, ?_⟩
  · intro cmd
    by_cases h : cmd = "help".toList
    · rw [if_pos h, h]; decide
    · rw [if_neg h]
      unfold help_cmd_str pebbleArgs
      rw [if_neg h]
      rw [show "pebble ".toList = "pebble".toList ++ [' '] from rfl,
        show " --help".toList = [' '] ++ "--help".toList from rfl]
      simp [joinList, List.append_assoc]
  · intro cmd
    by_cases h : cmd = "help".toList
    · rw [if_pos h, h]; decide
    · rw [if_neg h]
      unfold go_run_cmd_str pebbleArgs
      rw [if_neg h]
      rw [show "go run ../cmd/pebble ".toList =
          "go".toList ++ [' '] ++ ("run".toList ++ [' '] ++ ("../cmd/pebble".toList ++ [' ']))
          from rfl,
        show " --help".toList = [' '] ++ "--help".toList from rfl]
      simp [joinList, List.append_assoc]
  · intro cmd capture
    show occursAt (inputDirective ++ (help_cmd_str cmd ++ ['\n']))
      (automatedOutputBlock (help_cmd_str cmd) (pyStrip capture)) 46
    refine occursAt_iff.mpr
      ⟨pyStrip capture ++ ("\n```\n".toList ++ AUTOMATED_STOP_MARKER), ?_⟩
    rw [outBlock_decomp46, List.drop_left' (by rfl)]
    simp [List.append_assoc]

/-- C7 counterexample: substituting a description that itself contains the stop
marker yields a document with two stop-marker occurrences, so synthesis does not
always produce exactly one marker pair. -/
theorem C7_counterexample :
    pyFormatSubst TEMPLATE "x".toList AUTOMATED_STOP_MARKER =
      some (formattedDoc "x".toList AUTOMATED_STOP_MARKER) ∧
    occursAt AUTOMATED_STOP_MARKER (formattedDoc "x".toList AUTOMATED_STOP_MARKER) 43 ∧
    occursAt AUTOMATED_STOP_MARKER (formattedDoc "x".toList AUTOMATED_STOP_MARKER) 153 := by
  refine ⟨pyFormatSubst_TEMPLATE _ _, by decide, by decide⟩

/-- C7 (amended): for substituted values free of `<` and `\x7b`, synthesis from
the template substitutes both placeholders (no format error), leaves no
`\x7bcommand\x7d`/`\x7bdescription\x7d` placeholder anywhere, and produces
exactly one start marker and one stop marker, the start marker first. -/
theorem C7_template_amended {c d : List Char}
    (h1 : ∀ x ∈ c, x ≠ '<') (h2 : ∀ x ∈ d, x ≠ '<')
    (h3 : ∀ x ∈ c, x ≠ lbrace) (h4 : ∀ x ∈ d, x ≠ lbrace) :
    pyFormatSubst TEMPLATE c d = some (formattedDoc c d) ∧
    (∀ i, occursAt AUTOMATED_START_MARKER (formattedDoc c d) i ↔
      i = 41 + 2 * c.length + d.length + 12) ∧
    (∀ i, occursAt AUTOMATED_STOP_MARKER (formattedDoc c d) i ↔
      i = 41 + 2 * c.length + d.length + 81) ∧
    41 + 2 * c.length + d.length + 12 < 41 + 2 * c.length + d.length + 81 ∧
    (∀ i, ¬ occursAt phCommand (formattedDoc c d) i) ∧
    (∀ i, ¬ occursAt phDescription (formattedDoc c d) i) :=
  ⟨pyFormatSubst_TEMPLATE c d, formatted_start_iff h1 h2, formatted_stop_iff h1 h2,
    by omega, fun i => (formatted_no_placeholder h3 h4 i).1,
    fun i => (formatted_no_placeholder h3 h4 i).2⟩

/-- C7 witness: template completeness at a concrete command and description. -/
theorem C7_witness :
    occursAt AUTOMATED_START_MARKER
      (formattedDoc "version".toList "shows version".toList) 80 ∧
    occursAt AUTOMATED_STOP_MARKER
      (formattedDoc "version".toList "shows version".toList) 149 ∧
    (∀ i, ¬ occursAt phCommand (formattedDoc "version".toList "shows version".toList) i) :=
  ⟨((@C7_template_amended "version".toList "shows version".toList (by decide) (by decide)
      (by decide) (by decide)).2.1 80).mpr (by decide),
    ((@C7_template_amended "version".toList "shows version".toList (by decide) (by decide)
      (by decide) (by decide)).2.2.1 149).mpr (by decide),
    (@C7_template_amended "version".toList "shows version".toList (by decide) (by decide)
      (by decide) (by decide)).2.2.2.2.1⟩

theorem formatted_decomp_desc (c d : List Char) : formattedDoc c d =
    (tplK1 ++ c ++ tplK2 ++ c ++ tplK3) ++ (d ++ tplK4) := by
  simp [formattedDoc, List.append_assoc]

theorem formatted_prefix5_len (c : List Char) :
    (tplK1 ++ c ++ tplK2 ++ c ++ tplK3).length = 41 + 2 * c.length := by
  simp only [List.length_append, tplK1_len, tplK2_len, tplK3_len]
  omega

/-- C8 counterexample: the substituted description comes from the enumerator's
one-line description, not from the first sentence of the captured help text:
the two values differ at this input and the claimed value appears nowhere in
the written document. -/
theorem C8_counterexample :
    mkDescription "exec".toList "Run things".toList ≠
      claimedDescriptionValue "exec".toList demoCapture8 ∧
    process_command_text false "exec".toList "Run things".toList demoCapture8 TEMPLATE =
      MergeOutcome.wrote c8written ∧
    (∀ i, i < c8written.length →
      ¬ occursAt (claimedDescriptionValue "exec".toList demoCapture8) c8written i) := by
  decide

/-- C8 (amended): for every fresh document, the value substituted for the
`\x7bdescription\x7d` placeholder is the enumerator-provided one-line
description, lower-cased and wrapped as
"The `cmd` command is used to <description>."; the synthesized document carries
it at offset `41 + 2|cmd|`. -/
theorem C8_description_amended (cmd desc capture : List Char) :
    process_command_text false cmd desc capture TEMPLATE =
      MergeOutcome.wrote (mergeDoc (help_cmd_str cmd)
        (automatedOutputBlock (help_cmd_str cmd) (pyStrip capture))
        (formattedDoc cmd (mkDescription cmd desc))) ∧
    mkDescription cmd desc =
      "The `".toList ++ (cmd ++ ("` command is used to ".toList ++ (pyLower desc ++ ['.']))) ∧
    occursAt (mkDescription cmd desc) (formattedDoc cmd (mkDescription cmd desc))
      (41 + 2 * cmd.length) := by
  refine ⟨?_, ?_, ?_⟩
  · unfold process_command_text
    rw [if_pos (show (strFind TEMPLATE AUTOMATED_START_MARKER).isSome = true by decide),
      pyFormatSubst_TEMPLATE]
    rfl
  · simp [mkDescription, List.append_assoc]
  · refine occursAt_iff.mpr ⟨tplK4, ?_⟩
    rw [formatted_decomp_desc, List.drop_left' (formatted_prefix5_len cmd)]

/-- C9: an existing document never goes through the placeholder substitution:
`process_command` writes exactly the two-step merge of the stored text, and on
a well-formed document only the `:input:` line and the marker span change —
text outside the span (brace characters included) survives verbatim. -/
theorem C9_no_format_for_existing (cmd description capture D : List Char) (s p : Nat) :
    ((strFind D AUTOMATED_START_MARKER).isSome →
      process_command_text true cmd description capture D = MergeOutcome.wrote
        (mergeDoc (help_cmd_str cmd)
          (automatedOutputBlock (help_cmd_str cmd) (pyStrip capture)) D)) ∧
    (WellFormedDoc D s p → GoodContent (help_cmd_str cmd) (pyStrip capture) →
      process_command_text true cmd description capture D = MergeOutcome.wrote
        (D.take s ++ automatedOutputBlock (help_cmd_str cmd) (pyStrip capture) ++
          D.drop (p + 29))) := by
  constructor
  · intro h
    unfold process_command_text
    rw [if_pos h]
    rfl
  · intro hD hC
    unfold process_command_text
    rw [if_pos (by rw [hD.1]; rfl)]
    exact congrArg MergeOutcome.wrote (merge_shape hD hC)

/-- C9 witness: an existing well-formed page is merged without formatting, the
text outside the span untouched. -/
theorem C9_witness :
    process_command_text true "exec".toList "Run things".toList demoHelp wfDoc1 =
      MergeOutcome.wrote (wfDoc1.take 4 ++
        automatedOutputBlock (help_cmd_str "exec".toList) (pyStrip demoHelp) ++
        wfDoc1.drop 75) :=
  (C9_no_format_for_existing "exec".toList "Run things".toList demoHelp wfDoc1 4 46).2
    (by decide) (by decide)

/-- C10: with no `toctree` fence in the index document, `update_toc` still
rewrites the file: the result is `text[:len-1]` + rebuilt toctree +
`text[end:]` with `end` three past the first triple-backtick (or `2` when there
is none), and it always differs from the original text. -/
theorem C10_toc_no_guard (cmds : List (List (List Char))) (text : List Char)
    (h : strFind text ("```\x7btoctree\x7d".toList) = none) :
    update_toc_text cmds text = text.take (text.length - 1) ++ tocTree cmds ++
      text.drop (match strFind text ("```".toList) with | some j => j + 3 | none => 2) ∧
    update_toc_text cmds text ≠ text := by
  have htoc : 40 ≤ (tocTree cmds).length := by
    unfold tocTree
    simp only [List.length_append,
      show ("```\x7btoctree\x7d\n:titlesonly:\n:maxdepth: 1\n\n".toList).length = 40 from rfl]
    omega
  have heq : update_toc_text cmds text = text.take (text.length - 1) ++ tocTree cmds ++
      text.drop (match strFind text ("```".toList) with | some j => j + 3 | none => 2) := by
    unfold update_toc_text
    rw [pyFind_eq_neg h]
    rw [show ((-1 : Int) + 1).toNat = 0 from rfl]
    unfold pyFindFrom
    rw [List.drop_zero]
    have hslice : pySliceTo text (-1) = text.take (text.length - 1) := by
      unfold pySliceTo pyIdx
      rw [if_pos (by decide)]
      congr 1
      omega
    cases hf : strFind text ("```".toList) with
    | none =>
      rw [hslice, show ((-1 : Int) + 3) = ((2 : Nat) : Int) from rfl, pySliceFrom_nat]
    | some j =>
      rw [hslice, show (((j + 0 : Nat) : Int) + 3) = ((j + 3 : Nat) : Int) by push_cast; ring,
        pySliceFrom_nat]
  refine ⟨heq, ?_⟩
  intro hcontra
  rw [heq] at hcontra
  have hlen := congrArg List.length hcontra
  simp only [List.length_append, List.length_take, List.length_drop] at hlen
  omega

/-- C10 witness: the unguarded rewrite on a fence-free index document. -/
theorem C10_witness :
    update_toc_text [["add".toList]] "hello".toList =
      "hello".toList.take 4 ++ tocTree [["add".toList]] ++
        "hello".toList.drop (match strFind "hello".toList ("```".toList) with
          | some j => j + 3 | none => 2) ∧
    update_toc_text [["add".toList]] "hello".toList ≠ "hello".toList :=
  C10_toc_no_guard [["add".toList]] "hello".toList (by decide)
